import Mathlib

set_option maxHeartbeats 1000000
set_option maxRecDepth 8000

/-!
# Shallow embedding of `SimSWARM/Signal/signal.py`

Modelling conventions:

* Python floats are modelled as real numbers (exact arithmetic).
* numpy arrays are modelled as `List ℝ` (or `List ℂ` in the FFT paths).
* The legacy `numpy.random.RandomState(seed)` gaussian stream is modelled by an
  abstract family `randn : ℤ → ℕ → ℝ` mapping a seed and a stream position to
  the gaussian value drawn at that position.  This is faithful because the
  source constructs a fresh `RandomState(seed)` object for every window and
  `RandomState.randn` consumes the per-seed gaussian stream sequentially
  (the legacy generator caches the spare Box-Muller value in the state object,
  so consecutive `randn(a); randn(b)` calls return exactly the same values as a
  single `randn(a+b)` call).
* The file is Python 2 code: `/` on ints is floor division (`Int.fdiv`), and
  arithmetic between a float and `None` raises `TypeError`.
* Raised Python exceptions are modelled with `Except PyErr`.
* `np.min`/`np.max` raise on an empty array; `npMin`/`npMax` below return `0`
  there instead (the branch is only reachable for a zero sample count).
-/

/-- Python exception classes that the modelled code can raise. -/
inductive PyErr where
  | valueError
  | typeError
  | attributeError
  deriving DecidableEq

/-- `np.arange(start, stop, step)`: `max 0 ⌈(stop - start) / step⌉` evenly
spaced values `start + i * step` (numpy clamps a negative count to zero, just
as `Int.toNat` does). -/
noncomputable def arange (start stop step : ℝ) : List ℝ :=
  (List.range (⌈(stop - start) / step⌉).toNat).map fun i : ℕ => start + (i : ℝ) * step

/-- `Generator.get_time_vector(r, n, t)` from the source:
`delta_t = 1.0/r; t_stop = n*delta_t; return np.arange(0, t_stop, delta_t) + t`. -/
noncomputable def Generator.get_time_vector (r : ℝ) (n : ℕ) (t : ℝ) : List ℝ :=
  (arange 0 ((n : ℝ) * (1 / r)) (1 / r)).map fun x => x + t

/-- `np.min` over a vector (raises on empty input in numpy; modelled as `0`,
reachable only for a zero sample count). -/
noncomputable def npMin : List ℝ → ℝ
  | [] => 0
  | x :: xs => xs.foldl min x

/-- `np.max` over a vector (same remark as `npMin`). -/
noncomputable def npMax : List ℝ → ℝ
  | [] => 0
  | x :: xs => xs.foldl max x

/-- `np.roll(x, s)`: circularly shift a vector right by `s` positions. -/
def npRoll (x : List ℂ) (s : ℤ) : List ℂ :=
  (List.range x.length).map fun i : ℕ => x.getD (((i : ℤ) - s).emod (x.length : ℤ)).toNat 0

/-- `np.fft.fftshift`: `np.roll(x, len(x) // 2)`. -/
def fftshift (x : List ℂ) : List ℂ := npRoll x ((x.length / 2 : ℕ) : ℤ)

/-- `np.fft.ifftshift`: `np.roll(x, -(len(x) // 2))`. -/
def ifftshift (x : List ℂ) : List ℂ := npRoll x (-((x.length / 2 : ℕ) : ℤ))

/-- Zero-pad (or truncate) a vector to length `N`, as `np.fft.fft(x, N)` does
before transforming. -/
def padTo (N : ℕ) (x : List ℂ) : List ℂ :=
  x.take N ++ List.replicate (N - x.length) 0

/-- The discrete Fourier transform computed by `np.fft.fft` (exact-arithmetic
model): `X_k = Σ_j x_j exp(-2πi·j·k/N)`. -/
noncomputable def dft (x : List ℂ) : List ℂ :=
  (List.range x.length).map fun k : ℕ =>
    ∑ j ∈ Finset.range x.length,
      x.getD j 0 * Complex.exp (-(2 * (Real.pi : ℂ) * Complex.I) * (j : ℂ) * (k : ℂ) / (x.length : ℂ))

/-- The inverse discrete Fourier transform computed by `np.fft.ifft`:
`x_k = (Σ_j X_j exp(2πi·j·k/N)) / N`. -/
noncomputable def idft (x : List ℂ) : List ℂ :=
  (List.range x.length).map fun k : ℕ =>
    (∑ j ∈ Finset.range x.length,
      x.getD j 0 * Complex.exp ((2 * (Real.pi : ℂ) * Complex.I) * (j : ℂ) * (k : ℂ) / (x.length : ℂ)))
      / (x.length : ℂ)

/-!
## GaussianNoiseGenerator
-/

/-- The per-instance state of a `GaussianNoiseGenerator`: `_base_seed` (the
value drawn from the class-level seed list at construction), `_mean` and
`_variance`.  The `base_seed` property of the source exposes
`{'pos': _base_seed, 'neg': _base_seed + 1}`. -/
structure GaussianNoiseGenerator where
  base_seed : ℤ
  mean : ℝ
  variance : ℝ

/-- `GaussianNoiseGenerator._samples_per_seed = 2**20`. -/
def samples_per_seed : ℤ := 2 ^ 20

/-- `GaussianNoiseGenerator._seed_window_to_random_state`: the seed of the
`RandomState` used for a given seed window.  Positive-time windows use the
`'pos'` base seed (`_base_seed`), negative windows the `'neg'` base seed
(`_base_seed + 1`) with the extra `-2` offset, and in both cases the seed
advances by `2·|window|`. -/
def seed_window_to_random_state (base_seed window : ℤ) : ℤ :=
  if window < 0 then (base_seed + 1) - 2 + 2 * |window|
  else base_seed + 2 * |window|

/-- Drawing from a `RandomState(seed)` stream: first `rs.randn(skip)` samples
are discarded, then `n` samples are returned; the returned samples sit at
positions `skip, skip+1, …, skip+n-1` of the per-seed stream. -/
def streamDraw (randn : ℤ → ℕ → ℝ) (seed : ℤ) (skip n : ℕ) : List ℝ :=
  (List.range n).map fun i => randn seed (skip + i)

/-- The `for iwindow in range(seed_window_start+1, seed_window_end)` loop of
`_draw_samples`: draw `k` consecutive full windows starting at window `w`,
each from its own freshly seeded stream, and concatenate in order. -/
def fullWindows (randn : ℤ → ℕ → ℝ) (base_seed : ℤ) (w : ℤ) : ℕ → List ℝ
  | 0 => []
  | k + 1 =>
    streamDraw randn (seed_window_to_random_state base_seed w) 0 samples_per_seed.toNat
      ++ fullWindows randn base_seed (w + 1) k

/-- `GaussianNoiseGenerator._draw_samples(sample_ends)`: random samples over
the inclusive integer index range `[sample_ends.1, sample_ends.2]`.  Python 2
`/` on ints is floor division, hence `Int.fdiv`. -/
def draw_samples (randn : ℤ → ℕ → ℝ) (base_seed : ℤ) (sample_ends : ℤ × ℤ) : List ℝ :=
  let W := samples_per_seed
  let seed_window_start := Int.fdiv sample_ends.1 W
  let seed_window_end := Int.fdiv sample_ends.2 W
  if seed_window_start = seed_window_end then
    streamDraw randn (seed_window_to_random_state base_seed seed_window_start)
      (sample_ends.1 - seed_window_start * W).natAbs
      (sample_ends.2 - sample_ends.1 + 1).toNat
  else
    let part1 := streamDraw randn (seed_window_to_random_state base_seed seed_window_start)
      (sample_ends.1 - seed_window_start * W).natAbs
      ((seed_window_start + 1) * W - sample_ends.1).natAbs
    let middle := fullWindows randn base_seed (seed_window_start + 1)
      (seed_window_end - (seed_window_start + 1)).toNat
    let part2 := streamDraw randn (seed_window_to_random_state base_seed seed_window_end)
      0 ((sample_ends.2 - seed_window_end * W).natAbs + 1)
    part1 ++ middle ++ part2

/-- The underlying doubly infinite noise sequence realised by `_draw_samples`:
sample `j` lives at offset `j mod 2^20` of the stream for seed window
`⌊j / 2^20⌋`.  (Analysis helper, used to state the lemmas about
`draw_samples`.) -/
def noiseAt (randn : ℤ → ℕ → ℝ) (base_seed j : ℤ) : ℝ :=
  randn (seed_window_to_random_state base_seed (Int.fdiv j samples_per_seed))
    (j - Int.fdiv j samples_per_seed * samples_per_seed).toNat

/-- The samples of the underlying noise sequence over the inclusive integer
index range `[a, b]`.  (Analysis helper.) -/
def noiseRange (randn : ℤ → ℕ → ℝ) (base_seed a b : ℤ) : List ℝ :=
  (List.range (b - a + 1).toNat).map fun i : ℕ => noiseAt randn base_seed (a + (i : ℤ))

open scoped Classical in
/-- The fractional-sample-period correction of
`GaussianNoiseGenerator.generate`: zero-pad to the next power of two,
forward-transform, multiply by the linear phase ramp `exp(2πi·f·Δt)`,
inverse-transform, take the real part, truncate, then slice out `len(tvec)`
samples starting at `np.argwhere(tvec[0] - np.arange(s_min, s_max)/r >= 0)[0][-1]`
(on a 1-D condition this is the first index satisfying it; if no index
satisfies it the source raises `IndexError`, modelled here by `findIdx`
returning the list length so that the final slice is empty). -/
noncomputable def fractional_correction (r : ℝ) (tvec : List ℝ) (s_min s_max : ℤ)
    (samples_all : List ℝ) : List ℝ :=
  let next_power_of_two : ℤ := ⌈Real.logb 2 (samples_all.length : ℝ)⌉
  let N : ℕ := 2 ^ next_power_of_two.toNat
  let samples_fft := fftshift (dft (padTo N (samples_all.map fun x => (x : ℂ))))
  let delta_t := tvec.headD 0 - (s_min : ℝ) / r
  let fvec := arange (-(r / 2)) (r / 2) (r / (N : ℝ))
  let samples_fft2 := List.zipWith
    (fun X f => X * Complex.exp (Complex.I * ((2 * Real.pi * f * delta_t : ℝ) : ℂ)))
    samples_fft fvec
  let samples_td := ((idft (ifftshift samples_fft2)).map Complex.re).take samples_all.length
  let idx_start := (List.range (s_max - s_min).toNat).findIdx
    fun i : ℕ => decide (0 ≤ tvec.headD 0 - ((s_min : ℝ) + (i : ℝ)) / r)
  (samples_td.drop idx_start).take tvec.length

/-- `GaussianNoiseGenerator.generate(r, n, t)`: time vector, integer sample
bounds `s_min = ⌊min(tvec)·r⌋`, `s_max = ⌈max(tvec)·r⌉`, seed-windowed draw,
optional fractional-offset correction, then the statistics adjustment
`samples * sqrt(variance) + mean`. -/
noncomputable def GaussianNoiseGenerator.generate (randn : ℤ → ℕ → ℝ)
    (g : GaussianNoiseGenerator) (r : ℝ) (n : ℕ) (t : ℝ) : List ℝ :=
  let tvec := Generator.get_time_vector r n t
  let s_min : ℤ := ⌊npMin tvec * r⌋
  let s_max : ℤ := ⌈npMax tvec * r⌉
  let samples_all := draw_samples randn g.base_seed (s_min, s_max)
  let samples_all2 :=
    if tvec.length < samples_all.length then
      fractional_correction r tvec s_min s_max samples_all
    else samples_all
  samples_all2.map fun x => x * Real.sqrt g.variance + g.mean

/-!
## Generators and analog signals
-/

/-- The `Generator` class hierarchy: the base class (whose `generate` returns
zeros), `ConstantGenerator`, `SinusoidGenerator` and `GaussianNoiseGenerator`. -/
inductive Generator where
  | base
  | const (amplitude : ℝ)
  | sinusoid (amplitude frequency phase : ℝ)
  | noise (g : GaussianNoiseGenerator)

/-- Dynamic dispatch of `generate` over the `Generator` hierarchy.
`base`: `np.zeros(n)`; `const`: `amplitude * np.ones(n)`;
`sinusoid`: `amplitude * np.sin(2π·frequency·tvec + phase)`;
`noise`: `GaussianNoiseGenerator.generate`. -/
noncomputable def Generator.generate (randn : ℤ → ℕ → ℝ) :
    Generator → ℝ → ℕ → ℝ → List ℝ
  | Generator.base, _, n, _ => List.replicate n 0
  | Generator.const a, _, n, _ => (List.replicate n (1 : ℝ)).map fun x => a * x
  | Generator.sinusoid a f p, r, n, t =>
    (Generator.get_time_vector r n t).map fun ti => a * Real.sin (2 * Real.pi * f * ti + p)
  | Generator.noise g, r, n, t => GaussianNoiseGenerator.generate randn g r n t

/-- The transform state of a `TransformedAnalogSignal`: `_time_delay`,
`_flat_gain`, `_frequency_magnitude_slope`, `_frequency_phase_slope` (the two
slopes are `None` until set, modelled by `Option`). -/
structure TransformState where
  time_delay : ℝ
  flat_gain : ℝ
  frequency_magnitude_slope : Option ℝ
  frequency_phase_slope : Option ℝ

/-- The identity transform state installed when constructing from a plain
`AnalogSignal`: delay `0`, gain `1`, both slopes `None`. -/
def identityTransform : TransformState :=
  { time_delay := 0, flat_gain := 1
    frequency_magnitude_slope := none, frequency_phase_slope := none }

/-- `TransformedAnalogSignal.apply_delay(d)`:
`self._time_delay = self.time_delay + d`.  There is no `None` check: a `None`
argument raises `TypeError` from `float + None`. -/
def TransformState.apply_delay (st : TransformState) (d : Option ℝ) :
    Except PyErr TransformState :=
  match d with
  | none => Except.error PyErr.typeError
  | some v => Except.ok { st with time_delay := st.time_delay + v }

/-- `TransformedAnalogSignal.apply_gain(g)`:
`self._flat_gain = self.flat_gain * g`.  A `None` argument raises `TypeError`
from `float * None`. -/
def TransformState.apply_gain (st : TransformState) (g : Option ℝ) :
    Except PyErr TransformState :=
  match g with
  | none => Except.error PyErr.typeError
  | some v => Except.ok { st with flat_gain := st.flat_gain * v }

/-- `TransformedAnalogSignal.apply_frequency_magnitude_slope(m)`.  The source
line `if (m == None): pass` has no effect (it does not return), so the update
always runs: if the slope is unset it is set to `m` (even when `m` is `None`),
otherwise `self.frequency_magnitude_slope + m` is stored — which raises
`TypeError` when `m` is `None`. -/
def TransformState.apply_frequency_magnitude_slope (st : TransformState) (m : Option ℝ) :
    Except PyErr TransformState :=
  match st.frequency_magnitude_slope, m with
  | none, _ => Except.ok { st with frequency_magnitude_slope := m }
  | some cur, some v => Except.ok { st with frequency_magnitude_slope := some (cur + v) }
  | some _, none => Except.error PyErr.typeError

/-- `TransformedAnalogSignal.apply_frequency_phase_slope(p)`.  Same dead
`if (p == None): pass` line; if the slope is unset it is set to `p`, otherwise
`self.frequency_phase_slope * p` is stored (multiplicative combination),
raising `TypeError` when `p` is `None`. -/
def TransformState.apply_frequency_phase_slope (st : TransformState) (p : Option ℝ) :
    Except PyErr TransformState :=
  match st.frequency_phase_slope, p with
  | none, _ => Except.ok { st with frequency_phase_slope := p }
  | some cur, some v => Except.ok { st with frequency_phase_slope := some (cur * v) }
  | some _, none => Except.error PyErr.typeError

/-- `TransformedAnalogSignal.sample(r, n, t)`: delayed generation, flat gain,
then — unless both slopes are unset — an FFT round trip applying the magnitude
slope `10^((m/20)·(|f|/1e9))` and the phase ramp `exp(2πi·p·f)` over the
zero-centred frequency grid `np.arange(-r/2, r/2, r/n)`. -/
noncomputable def TransformedAnalogSignal.sample (randn : ℤ → ℕ → ℝ) (gen : Generator)
    (st : TransformState) (r : ℝ) (n : ℕ) (t : ℝ) : List ℝ :=
  let td_samples := (Generator.generate randn gen r n (t + st.time_delay)).map
    fun x => st.flat_gain * x
  if st.frequency_magnitude_slope.isNone && st.frequency_phase_slope.isNone then
    td_samples
  else
    let fd0 := fftshift (dft (td_samples.map fun x => (x : ℂ)))
    let fvec := arange (-(r / 2)) (r / 2) (r / (n : ℝ))
    let fd1 :=
      match st.frequency_magnitude_slope with
      | some m =>
        List.zipWith (fun X f => X * ((((10 : ℝ) ^ ((m / 20) * (|f| / 1000000000)) : ℝ)) : ℂ))
          fd0 fvec
      | none => fd0
    let fd2 :=
      match st.frequency_phase_slope with
      | some p =>
        List.zipWith (fun X f => X * Complex.exp (Complex.I * ((2 * Real.pi * p * f : ℝ) : ℂ)))
          fd1 fvec
      | none => fd1
    (idft (ifftshift fd2)).map Complex.re

/-- The runtime class of a value flowing through the `AnalogSignal` hierarchy:
a plain `AnalogSignal` (a generator and nothing else), a
`TransformedAnalogSignal` (generator plus transform state), or a
`CompoundAnalogSignal` (only a component list: its `__init__` never calls the
parent constructors, so neither `_generator` nor any `_time_delay`-style
attribute exists on it). -/
inductive SigObj where
  | plain (gen : Generator)
  | transformed (gen : Generator) (st : TransformState)
  | compound (components : List SigObj)

/-- An arbitrary Python value passed to a constructor: either some
`AnalogSignal` instance or a non-signal value. -/
inductive PyVal where
  | sig (s : SigObj)
  | nonsig

/-- `TransformedAnalogSignal.__init__(analog_signal)`.  Non-signals raise
`ValueError`; a `TransformedAnalogSignal` argument has its four transform
attributes copied; a plain `AnalogSignal` yields the identity transform state.
A `CompoundAnalogSignal` argument enters the `isinstance TransformedAnalogSignal`
branch, and reading `analog_signal.time_delay` raises `AttributeError`
because `CompoundAnalogSignal.__init__` never sets `_time_delay`. -/
def TransformedAnalogSignal.construct : PyVal → Except PyErr (Generator × TransformState)
  | PyVal.nonsig => Except.error PyErr.valueError
  | PyVal.sig (SigObj.plain g) => Except.ok (g, identityTransform)
  | PyVal.sig (SigObj.transformed g st) => Except.ok (g, st)
  | PyVal.sig (SigObj.compound _) => Except.error PyErr.attributeError

/-- Wrap each element of a component list as a fresh
`TransformedAnalogSignal(t)` in order (the inner loop of
`CompoundAnalogSignal.__init__` for a compound argument). -/
def CompoundAnalogSignal.wrapAll : List SigObj → Except PyErr (List SigObj)
  | [] => Except.ok []
  | s :: rest => do
    let p ← TransformedAnalogSignal.construct (PyVal.sig s)
    let others ← CompoundAnalogSignal.wrapAll rest
    Except.ok (SigObj.transformed p.1 p.2 :: others)

/-- `CompoundAnalogSignal.__init__(signals)`: each compound element is
flattened (its components are re-wrapped individually), every other element is
wrapped as `TransformedAnalogSignal(s)` and appended. -/
def CompoundAnalogSignal.construct : List PyVal → Except PyErr (List SigObj)
  | [] => Except.ok []
  | v :: rest =>
    match v with
    | PyVal.sig (SigObj.compound cs) => do
      let first ← CompoundAnalogSignal.wrapAll cs
      let others ← CompoundAnalogSignal.construct rest
      Except.ok (first ++ others)
    | _ => do
      let p ← TransformedAnalogSignal.construct v
      let others ← CompoundAnalogSignal.construct rest
      Except.ok (SigObj.transformed p.1 p.2 :: others)

/-- numpy in-place `result += samples`: elementwise when the lengths agree,
broadcasting a length-1 operand, raising `ValueError` otherwise. -/
def npIAdd (acc xs : List ℝ) : Except PyErr (List ℝ) :=
  if xs.length = acc.length then Except.ok (List.zipWith (fun a x => a + x) acc xs)
  else if xs.length = 1 then Except.ok (acc.map fun a => a + xs.headD 0)
  else Except.error PyErr.valueError

mutual

/-- Dynamic dispatch of `sample(r, n, t)`: `AnalogSignal.sample` returns the
generator output, `TransformedAnalogSignal.sample` applies the transforms, and
`CompoundAnalogSignal.sample` accumulates each component sample into
`np.zeros(n)`. -/
noncomputable def SigObj.sample (randn : ℤ → ℕ → ℝ) :
    SigObj → ℝ → ℕ → ℝ → Except PyErr (List ℝ)
  | SigObj.plain g, r, n, t => Except.ok (Generator.generate randn g r n t)
  | SigObj.transformed g st, r, n, t =>
    Except.ok (TransformedAnalogSignal.sample randn g st r n t)
  | SigObj.compound cs, r, n, t => SigList.sample_acc randn cs r n t (List.replicate n 0)

/-- The `for c in self.components: result += c.sample(r,n,t)` loop of
`CompoundAnalogSignal.sample`. -/
noncomputable def SigList.sample_acc (randn : ℤ → ℕ → ℝ) :
    List SigObj → ℝ → ℕ → ℝ → List ℝ → Except PyErr (List ℝ)
  | [], _, _, _, acc => Except.ok acc
  | c :: rest, r, n, t, acc => do
    let v ← SigObj.sample randn c r n t
    let acc2 ← npIAdd acc v
    SigList.sample_acc randn rest r n t acc2

end

/-- Reading the `time_delay` property: only a properly constructed
`TransformedAnalogSignal` has `_time_delay`; on a plain `AnalogSignal` the
property does not exist and on a `CompoundAnalogSignal` the inherited property
finds no `_time_delay` attribute — both raise `AttributeError`. -/
def SigObj.time_delay : SigObj → Except PyErr ℝ
  | SigObj.transformed _ st => Except.ok st.time_delay
  | _ => Except.error PyErr.attributeError

/-- Reading the `flat_gain` property (same access rules as `time_delay`). -/
def SigObj.flat_gain : SigObj → Except PyErr ℝ
  | SigObj.transformed _ st => Except.ok st.flat_gain
  | _ => Except.error PyErr.attributeError

/-- Reading the `frequency_magnitude_slope` property. -/
def SigObj.frequency_magnitude_slope : SigObj → Except PyErr (Option ℝ)
  | SigObj.transformed _ st => Except.ok st.frequency_magnitude_slope
  | _ => Except.error PyErr.attributeError

/-- Reading the `frequency_phase_slope` property. -/
def SigObj.frequency_phase_slope : SigObj → Except PyErr (Option ℝ)
  | SigObj.transformed _ st => Except.ok st.frequency_phase_slope
  | _ => Except.error PyErr.attributeError

mutual

/-- Dynamic dispatch of `apply_delay(d)`: on a `TransformedAnalogSignal` the
scalar update, on a `CompoundAnalogSignal` the broadcast over the component
list, on a plain `AnalogSignal` an `AttributeError` (no such method). -/
def SigObj.apply_delay : SigObj → Option ℝ → Except PyErr SigObj
  | SigObj.plain _, _ => Except.error PyErr.attributeError
  | SigObj.transformed g st, d => (TransformState.apply_delay st d).map (SigObj.transformed g)
  | SigObj.compound cs, d => (SigList.apply_delay cs d).map SigObj.compound

/-- `CompoundAnalogSignal.apply_delay`: `for c in self.components:
c.apply_delay(d)`. -/
def SigList.apply_delay : List SigObj → Option ℝ → Except PyErr (List SigObj)
  | [], _ => Except.ok []
  | c :: rest, d => do
    let c2 ← SigObj.apply_delay c d
    let rest2 ← SigList.apply_delay rest d
    Except.ok (c2 :: rest2)

end

mutual

/-- Dynamic dispatch of `apply_gain(g)`. -/
def SigObj.apply_gain : SigObj → Option ℝ → Except PyErr SigObj
  | SigObj.plain _, _ => Except.error PyErr.attributeError
  | SigObj.transformed g st, v => (TransformState.apply_gain st v).map (SigObj.transformed g)
  | SigObj.compound cs, v => (SigList.apply_gain cs v).map SigObj.compound

/-- `CompoundAnalogSignal.apply_gain` broadcast loop. -/
def SigList.apply_gain : List SigObj → Option ℝ → Except PyErr (List SigObj)
  | [], _ => Except.ok []
  | c :: rest, v => do
    let c2 ← SigObj.apply_gain c v
    let rest2 ← SigList.apply_gain rest v
    Except.ok (c2 :: rest2)

end

mutual

/-- Dynamic dispatch of `apply_frequency_magnitude_slope(m)` (the compound
version also carries the dead `if (m == None): pass` line before its loop). -/
def SigObj.apply_frequency_magnitude_slope : SigObj → Option ℝ → Except PyErr SigObj
  | SigObj.plain _, _ => Except.error PyErr.attributeError
  | SigObj.transformed g st, m =>
    (TransformState.apply_frequency_magnitude_slope st m).map (SigObj.transformed g)
  | SigObj.compound cs, m =>
    (SigList.apply_frequency_magnitude_slope cs m).map SigObj.compound

/-- `CompoundAnalogSignal.apply_frequency_magnitude_slope` broadcast loop. -/
def SigList.apply_frequency_magnitude_slope : List SigObj → Option ℝ → Except PyErr (List SigObj)
  | [], _ => Except.ok []
  | c :: rest, m => do
    let c2 ← SigObj.apply_frequency_magnitude_slope c m
    let rest2 ← SigList.apply_frequency_magnitude_slope rest m
    Except.ok (c2 :: rest2)

end

mutual

/-- Dynamic dispatch of `apply_frequency_phase_slope(p)`. -/
def SigObj.apply_frequency_phase_slope : SigObj → Option ℝ → Except PyErr SigObj
  | SigObj.plain _, _ => Except.error PyErr.attributeError
  | SigObj.transformed g st, p =>
    (TransformState.apply_frequency_phase_slope st p).map (SigObj.transformed g)
  | SigObj.compound cs, p =>
    (SigList.apply_frequency_phase_slope cs p).map SigObj.compound

/-- `CompoundAnalogSignal.apply_frequency_phase_slope` broadcast loop. -/
def SigList.apply_frequency_phase_slope : List SigObj → Option ℝ → Except PyErr (List SigObj)
  | [], _ => Except.ok []
  | c :: rest, p => do
    let c2 ← SigObj.apply_frequency_phase_slope c p
    let rest2 ← SigList.apply_frequency_phase_slope rest p
    Except.ok (c2 :: rest2)

end

/-- Whether a signal object is (exactly) a `TransformedAnalogSignal`. -/
def SigObj.isTransformed : SigObj → Bool
  | SigObj.transformed _ _ => true
  | _ => false

/-- Whether a signal object is a `CompoundAnalogSignal`. -/
def SigObj.isCompound : SigObj → Bool
  | SigObj.compound _ => true
  | _ => false

/-- A constructor argument that is a signal as it can actually occur at run
time: a plain or transformed signal, or a compound whose stored components are
all `TransformedAnalogSignal`s (the only shape `CompoundAnalogSignal.__init__`
ever produces). -/
def PyVal.isWellFormedSig : PyVal → Bool
  | PyVal.sig (SigObj.plain _) => true
  | PyVal.sig (SigObj.transformed _ _) => true
  | PyVal.sig (SigObj.compound cs) => cs.all SigObj.isTransformed
  | PyVal.nonsig => false

/-- The number of components an element contributes to a compound under
flattening: its own component count for a compound, `1` otherwise. -/
def PyVal.elemWeight : PyVal → ℕ
  | PyVal.sig (SigObj.compound cs) => cs.length
  | _ => 1

/-- The effect of the broadcast `apply_delay(d)` on a single stored component. -/
def mutateDelay (d : ℝ) : SigObj → SigObj
  | SigObj.transformed g st => SigObj.transformed g { st with time_delay := st.time_delay + d }
  | s => s

/-- The effect of the broadcast `apply_gain(g)` on a single stored component. -/
def mutateGain (v : ℝ) : SigObj → SigObj
  | SigObj.transformed g st => SigObj.transformed g { st with flat_gain := st.flat_gain * v }
  | s => s

/-- Accumulation law of the magnitude slope: first value, later values added. -/
def magAccum : Option ℝ → ℝ → ℝ
  | none, m => m
  | some c, m => c + m

/-- Accumulation law of the phase slope: first value, later values multiplied. -/
def phaseAccum : Option ℝ → ℝ → ℝ
  | none, p => p
  | some c, p => c * p

/-- The effect of the broadcast `apply_frequency_magnitude_slope(m)` on a
single stored component. -/
def mutateMagSlope (m : ℝ) : SigObj → SigObj
  | SigObj.transformed g st =>
    SigObj.transformed g
      { st with frequency_magnitude_slope := some (magAccum st.frequency_magnitude_slope m) }
  | s => s

/-- The effect of the broadcast `apply_frequency_phase_slope(p)` on a single
stored component. -/
def mutatePhaseSlope (p : ℝ) : SigObj → SigObj
  | SigObj.transformed g st =>
    SigObj.transformed g
      { st with frequency_phase_slope := some (phaseAccum st.frequency_phase_slope p) }
  | s => s

/-!
## Helper lemmas
-/

lemma map_one_mul (l : List ℝ) : (l.map fun x => (1 : ℝ) * x) = l := by
  simp

lemma TransformedAnalogSignal.sample_identity (randn : ℤ → ℕ → ℝ) (g : Generator)
    (r : ℝ) (n : ℕ) (t : ℝ) :
    TransformedAnalogSignal.sample randn g identityTransform r n t
      = Generator.generate randn g r n t := by
  simp [TransformedAnalogSignal.sample, identityTransform]

/-!
## Claim theorems
-/

/-- C1: for a fixed `GaussianNoiseGenerator` instance (identified, as in the
source, by its stored `_base_seed`, `_mean` and `_variance` attributes) and any
argument triple `(r, n, t)` — including fractional offsets that take the
interpolation path — two calls to `generate` return identical sample vectors.
In the embedding `generate` takes no mutable random-generator state and
returns none: the source seeds a fresh local `RandomState` for every seed
window, so the output is a pure function of the instance attributes and the
arguments, which is exactly what this theorem states. -/
theorem GaussianNoiseGenerator.generate_deterministic (randn : ℤ → ℕ → ℝ)
    (g g2 : GaussianNoiseGenerator) (r : ℝ) (n : ℕ) (t : ℝ)
    (h1 : g.base_seed = g2.base_seed) (h2 : g.mean = g2.mean)
    (h3 : g.variance = g2.variance) :
    GaussianNoiseGenerator.generate randn g r n t
      = GaussianNoiseGenerator.generate randn g2 r n t := by
  obtain ⟨b, m, v⟩ := g
  obtain ⟨b2, m2, v2⟩ := g2
  dsimp at h1 h2 h3
  subst h1; subst h2; subst h3
  rfl

/-- Witness for C1 at a concrete instance and concrete arguments. -/
theorem GaussianNoiseGenerator.generate_deterministic_witness :
    GaussianNoiseGenerator.generate (fun _ _ => 0) (GaussianNoiseGenerator.mk 0 0 1) 1 2 0
      = GaussianNoiseGenerator.generate (fun _ _ => 0) (GaussianNoiseGenerator.mk 0 0 1) 1 2 0 :=
  GaussianNoiseGenerator.generate_deterministic (fun _ _ => 0)
    (GaussianNoiseGenerator.mk 0 0 1) (GaussianNoiseGenerator.mk 0 0 1) 1 2 0 rfl rfl rfl

/-- C3 counterexample: calling `apply_gain` with a `None` argument on a fresh
transform state is not a no-op — it raises `TypeError` (from
`self.flat_gain * None`), refuting the claim that all four mutators silently
leave the state unchanged on a `none` argument. -/
theorem TransformState.apply_gain_none_raises :
    TransformState.apply_gain identityTransform none = Except.error PyErr.typeError
    ∧ TransformState.apply_gain identityTransform none ≠ Except.ok identityTransform := by
  exact ⟨rfl, by simp [TransformState.apply_gain]⟩

/-- C3 (amended): with a `none` argument, `apply_delay` and `apply_gain`
always raise `TypeError`; `apply_frequency_magnitude_slope` and
`apply_frequency_phase_slope` are no-ops (no error, state unchanged) exactly
when the corresponding slope is still unset, and raise `TypeError` once it is
set. -/
theorem TransformState.mutator_none_behavior (s : TransformState) :
    TransformState.apply_delay s none = Except.error PyErr.typeError
    ∧ TransformState.apply_gain s none = Except.error PyErr.typeError
    ∧ TransformState.apply_frequency_magnitude_slope s none =
        (if s.frequency_magnitude_slope.isNone then Except.ok s
         else Except.error PyErr.typeError)
    ∧ TransformState.apply_frequency_phase_slope s none =
        (if s.frequency_phase_slope.isNone then Except.ok s
         else Except.error PyErr.typeError) := by
  obtain ⟨d, gn, m, p⟩ := s
  refine ⟨rfl, rfl, ?_, ?_⟩
  · cases m <;> rfl
  · cases p <;> rfl

/-- C4: magnitude slopes accumulate additively while phase slopes combine
multiplicatively.  Stated both as the general one-step update law on an
arbitrary state and as the two-applications-from-unset composition:
`m1` then `m2` stores `m1 + m2`, while `p1` then `p2` stores `p1 * p2`. -/
theorem TransformState.slope_accumulation_laws (m1 m2 p1 p2 : ℝ) :
    ((TransformState.apply_frequency_magnitude_slope identityTransform (some m1)).bind
        fun s => TransformState.apply_frequency_magnitude_slope s (some m2))
      = Except.ok { identityTransform with frequency_magnitude_slope := some (m1 + m2) }
    ∧ ((TransformState.apply_frequency_phase_slope identityTransform (some p1)).bind
        fun s => TransformState.apply_frequency_phase_slope s (some p2))
      = Except.ok { identityTransform with frequency_phase_slope := some (p1 * p2) }
    ∧ (∀ (s : TransformState) (m : ℝ),
        TransformState.apply_frequency_magnitude_slope s (some m)
          = Except.ok
              { s with frequency_magnitude_slope := some (magAccum s.frequency_magnitude_slope m) })
    ∧ (∀ (s : TransformState) (p : ℝ),
        TransformState.apply_frequency_phase_slope s (some p)
          = Except.ok
              { s with frequency_phase_slope := some (phaseAccum s.frequency_phase_slope p) }) := by
  refine ⟨rfl, rfl, ?_, ?_⟩
  · intro s m
    obtain ⟨d, gn, ms, ps⟩ := s
    cases ms <;> rfl
  · intro s p
    obtain ⟨d, gn, ms, ps⟩ := s
    cases ps <;> rfl

/-- C8 counterexample: constructing a `TransformedAnalogSignal` from a
`CompoundAnalogSignal` (an `AnalogSignal` instance) raises — the
`isinstance TransformedAnalogSignal` branch reads `analog_signal.time_delay`,
and a compound has no `_time_delay` attribute, so the constructor fails with
`AttributeError` instead of succeeding. -/
theorem TransformedAnalogSignal.construct_compound_raises :
    TransformedAnalogSignal.construct (PyVal.sig (SigObj.compound []))
      = Except.error PyErr.attributeError
    ∧ ∀ p, TransformedAnalogSignal.construct (PyVal.sig (SigObj.compound []))
        ≠ Except.ok p := by
  exact ⟨rfl, fun p => by simp [TransformedAnalogSignal.construct]⟩

/-- C8 (amended): constructing a `TransformedAnalogSignal` from a value that
is not an `AnalogSignal` fails with the `InvalidArgument`-class error
(`ValueError`); constructing from a plain `AnalogSignal` or from a
`TransformedAnalogSignal` does not raise; but constructing from a
`CompoundAnalogSignal` raises `AttributeError`, because the compound
constructor never initialises the inherited transform attributes. -/
theorem TransformedAnalogSignal.construct_error_behavior :
    TransformedAnalogSignal.construct PyVal.nonsig = Except.error PyErr.valueError
    ∧ (∀ g : Generator,
        TransformedAnalogSignal.construct (PyVal.sig (SigObj.plain g))
          = Except.ok (g, identityTransform))
    ∧ (∀ (g : Generator) (st : TransformState),
        TransformedAnalogSignal.construct (PyVal.sig (SigObj.transformed g st))
          = Except.ok (g, st))
    ∧ (∀ cs : List SigObj,
        TransformedAnalogSignal.construct (PyVal.sig (SigObj.compound cs))
          = Except.error PyErr.attributeError) :=
  ⟨rfl, fun _ => rfl, fun _ _ => rfl, fun _ => rfl⟩

/-- C5: constructing a `TransformedAnalogSignal` from a plain `AnalogSignal`
resets the transform state to the identity (`delay = 0`, `gain = 1`, both
slopes unset); a freshly constructed instance samples exactly as its wrapped
signal's generator does, with no frequency-domain round trip; and constructing
from an existing `TransformedAnalogSignal` copies its four transform fields. -/
theorem TransformedAnalogSignal.construct_identity_and_sample :
    (∀ g : Generator,
        TransformedAnalogSignal.construct (PyVal.sig (SigObj.plain g))
          = Except.ok (g, identityTransform))
    ∧ (∀ (randn : ℤ → ℕ → ℝ) (g : Generator) (r : ℝ) (n : ℕ) (t : ℝ),
        TransformedAnalogSignal.sample randn g identityTransform r n t
          = Generator.generate randn g r n t)
    ∧ (∀ (g : Generator) (st : TransformState),
        TransformedAnalogSignal.construct (PyVal.sig (SigObj.transformed g st))
          = Except.ok (g, st)) :=
  ⟨fun _ => rfl,
   fun randn g r n t => TransformedAnalogSignal.sample_identity randn g r n t,
   fun _ _ => rfl⟩

lemma isCompound_false_of_isTransformed (c : SigObj) (h : c.isTransformed = true) :
    c.isCompound = false := by
  cases c <;> simp_all [SigObj.isTransformed, SigObj.isCompound]

lemma wrapAll_transformed (cs : List SigObj) (h : cs.all SigObj.isTransformed = true) :
    CompoundAnalogSignal.wrapAll cs = Except.ok cs := by
  induction cs with
  | nil => rfl
  | cons c rest ih =>
    rw [List.all_cons, Bool.and_eq_true] at h
    obtain ⟨hc, hrest⟩ := h
    cases c with
    | transformed g st =>
      rw [show CompoundAnalogSignal.wrapAll (SigObj.transformed g st :: rest)
            = Except.bind (CompoundAnalogSignal.wrapAll rest)
                (fun others => Except.ok (SigObj.transformed g st :: others)) from rfl,
          ih hrest]
      rfl
    | plain g => simp [SigObj.isTransformed] at hc
    | compound l => simp [SigObj.isTransformed] at hc

/-- C7: constructing a `CompoundAnalogSignal` from any list of
signal-capable elements (compounds among them having the component shape the
compound constructor actually produces) succeeds, stores only
`TransformedAnalogSignal` components — never a nested compound — and stores
exactly `Σ (1 for a non-compound element, component count for a compound
element)` components. -/
theorem CompoundAnalogSignal.construct_flattening (signals : List PyVal)
    (h : signals.all PyVal.isWellFormedSig = true) :
    ∃ cs, CompoundAnalogSignal.construct signals = Except.ok cs
      ∧ (∀ c ∈ cs, c.isTransformed = true)
      ∧ (∀ c ∈ cs, c.isCompound = false)
      ∧ cs.length = (signals.map PyVal.elemWeight).sum := by
  induction signals with
  | nil => exact ⟨[], rfl, by simp, by simp, by simp⟩
  | cons v rest ih =>
    rw [List.all_cons, Bool.and_eq_true] at h
    obtain ⟨hv, hrest⟩ := h
    obtain ⟨cs, hcs, htrans, hcomp, hlen⟩ := ih hrest
    cases v with
    | nonsig => simp [PyVal.isWellFormedSig] at hv
    | sig s =>
      cases s with
      | plain g =>
        refine ⟨SigObj.transformed g identityTransform :: cs, ?_, ?_, ?_, ?_⟩
        · rw [show CompoundAnalogSignal.construct (PyVal.sig (SigObj.plain g) :: rest)
                = Except.bind (CompoundAnalogSignal.construct rest)
                    (fun others =>
                      Except.ok (SigObj.transformed g identityTransform :: others)) from rfl,
              hcs]
          rfl
        · intro c hc
          rcases List.mem_cons.mp hc with hh | hh
          · subst hh; rfl
          · exact htrans c hh
        · intro c hc
          rcases List.mem_cons.mp hc with hh | hh
          · subst hh; rfl
          · exact hcomp c hh
        · simp [PyVal.elemWeight, hlen, Nat.add_comm]
      | transformed g st =>
        refine ⟨SigObj.transformed g st :: cs, ?_, ?_, ?_, ?_⟩
        · rw [show CompoundAnalogSignal.construct (PyVal.sig (SigObj.transformed g st) :: rest)
                = Except.bind (CompoundAnalogSignal.construct rest)
                    (fun others => Except.ok (SigObj.transformed g st :: others)) from rfl,
              hcs]
          rfl
        · intro c hc
          rcases List.mem_cons.mp hc with hh | hh
          · subst hh; rfl
          · exact htrans c hh
        · intro c hc
          rcases List.mem_cons.mp hc with hh | hh
          · subst hh; rfl
          · exact hcomp c hh
        · simp [PyVal.elemWeight, hlen, Nat.add_comm]
      | compound cs0 =>
        simp only [PyVal.isWellFormedSig] at hv
        refine ⟨cs0 ++ cs, ?_, ?_, ?_, ?_⟩
        · rw [show CompoundAnalogSignal.construct (PyVal.sig (SigObj.compound cs0) :: rest)
                = Except.bind (CompoundAnalogSignal.wrapAll cs0)
                    (fun first => Except.bind (CompoundAnalogSignal.construct rest)
                      (fun others => Except.ok (first ++ others))) from rfl,
              wrapAll_transformed cs0 hv, hcs]
          rfl
        · intro c hc
          rcases List.mem_append.mp hc with hh | hh
          · exact List.all_eq_true.mp hv c hh
          · exact htrans c hh
        · intro c hc
          rcases List.mem_append.mp hc with hh | hh
          · exact isCompound_false_of_isTransformed c (List.all_eq_true.mp hv c hh)
          · exact hcomp c hh
        · simp [PyVal.elemWeight, hlen]

/-- Witness for C7: a list holding a plain signal and a compound of one
transformed component flattens to two stored transformed components. -/
theorem CompoundAnalogSignal.construct_flattening_witness :
    ([PyVal.sig (SigObj.plain Generator.base),
      PyVal.sig (SigObj.compound [SigObj.transformed Generator.base identityTransform])].all
        PyVal.isWellFormedSig = true)
    ∧ ∃ cs, CompoundAnalogSignal.construct
          [PyVal.sig (SigObj.plain Generator.base),
           PyVal.sig (SigObj.compound [SigObj.transformed Generator.base identityTransform])]
        = Except.ok cs
      ∧ (∀ c ∈ cs, c.isTransformed = true)
      ∧ (∀ c ∈ cs, c.isCompound = false)
      ∧ cs.length = ([PyVal.sig (SigObj.plain Generator.base),
          PyVal.sig (SigObj.compound [SigObj.transformed Generator.base identityTransform])].map
            PyVal.elemWeight).sum :=
  ⟨rfl, CompoundAnalogSignal.construct_flattening _ rfl⟩

lemma SigList.apply_delay_map (cs : List SigObj) (d : ℝ)
    (h : cs.all SigObj.isTransformed = true) :
    SigList.apply_delay cs (some d) = Except.ok (cs.map (mutateDelay d)) := by
  induction cs with
  | nil => rfl
  | cons c rest ih =>
    rw [List.all_cons, Bool.and_eq_true] at h
    obtain ⟨hc, hrest⟩ := h
    cases c with
    | transformed g st =>
      rw [show SigList.apply_delay (SigObj.transformed g st :: rest) (some d)
            = Except.bind (SigList.apply_delay rest (some d))
                (fun rest2 => Except.ok
                  (SigObj.transformed g { st with time_delay := st.time_delay + d } :: rest2))
            from rfl,
          ih hrest]
      rfl
    | plain g => simp [SigObj.isTransformed] at hc
    | compound l => simp [SigObj.isTransformed] at hc

lemma SigList.apply_gain_map (cs : List SigObj) (v : ℝ)
    (h : cs.all SigObj.isTransformed = true) :
    SigList.apply_gain cs (some v) = Except.ok (cs.map (mutateGain v)) := by
  induction cs with
  | nil => rfl
  | cons c rest ih =>
    rw [List.all_cons, Bool.and_eq_true] at h
    obtain ⟨hc, hrest⟩ := h
    cases c with
    | transformed g st =>
      rw [show SigList.apply_gain (SigObj.transformed g st :: rest) (some v)
            = Except.bind (SigList.apply_gain rest (some v))
                (fun rest2 => Except.ok
                  (SigObj.transformed g { st with flat_gain := st.flat_gain * v } :: rest2))
            from rfl,
          ih hrest]
      rfl
    | plain g => simp [SigObj.isTransformed] at hc
    | compound l => simp [SigObj.isTransformed] at hc

lemma SigList.apply_frequency_magnitude_slope_map (cs : List SigObj) (m : ℝ)
    (h : cs.all SigObj.isTransformed = true) :
    SigList.apply_frequency_magnitude_slope cs (some m)
      = Except.ok (cs.map (mutateMagSlope m)) := by
  induction cs with
  | nil => rfl
  | cons c rest ih =>
    rw [List.all_cons, Bool.and_eq_true] at h
    obtain ⟨hc, hrest⟩ := h
    cases c with
    | transformed g st =>
      have hone : SigObj.apply_frequency_magnitude_slope (SigObj.transformed g st) (some m)
          = Except.ok (mutateMagSlope m (SigObj.transformed g st)) := by
        cases hms : st.frequency_magnitude_slope <;>
          simp [SigObj.apply_frequency_magnitude_slope,
            TransformState.apply_frequency_magnitude_slope, hms, mutateMagSlope, magAccum,
            Except.map]
      rw [show SigList.apply_frequency_magnitude_slope (SigObj.transformed g st :: rest) (some m)
            = Except.bind
                (SigObj.apply_frequency_magnitude_slope (SigObj.transformed g st) (some m))
                (fun c2 => Except.bind (SigList.apply_frequency_magnitude_slope rest (some m))
                  (fun rest2 => Except.ok (c2 :: rest2))) from rfl,
          hone, ih hrest]
      rfl
    | plain g => simp [SigObj.isTransformed] at hc
    | compound l => simp [SigObj.isTransformed] at hc

lemma SigList.apply_frequency_phase_slope_map (cs : List SigObj) (p : ℝ)
    (h : cs.all SigObj.isTransformed = true) :
    SigList.apply_frequency_phase_slope cs (some p)
      = Except.ok (cs.map (mutatePhaseSlope p)) := by
  induction cs with
  | nil => rfl
  | cons c rest ih =>
    rw [List.all_cons, Bool.and_eq_true] at h
    obtain ⟨hc, hrest⟩ := h
    cases c with
    | transformed g st =>
      have hone : SigObj.apply_frequency_phase_slope (SigObj.transformed g st) (some p)
          = Except.ok (mutatePhaseSlope p (SigObj.transformed g st)) := by
        cases hps : st.frequency_phase_slope <;>
          simp [SigObj.apply_frequency_phase_slope,
            TransformState.apply_frequency_phase_slope, hps, mutatePhaseSlope, phaseAccum,
            Except.map]
      rw [show SigList.apply_frequency_phase_slope (SigObj.transformed g st :: rest) (some p)
            = Except.bind
                (SigObj.apply_frequency_phase_slope (SigObj.transformed g st) (some p))
                (fun c2 => Except.bind (SigList.apply_frequency_phase_slope rest (some p))
                  (fun rest2 => Except.ok (c2 :: rest2))) from rfl,
          hone, ih hrest]
      rfl
    | plain g => simp [SigObj.isTransformed] at hc
    | compound l => simp [SigObj.isTransformed] at hc

/-- C10: a `CompoundAnalogSignal` carries no scalar transform state of its
own: its constructor never runs the parent constructor, so reading any of the
four transform properties on a compound raises `AttributeError`, and each of
the four broadcast mutators returns a compound whose component list is the
pointwise-mutated original list (a mutator touches nothing but the components;
in particular the result is again a compound on which the property reads still
raise `AttributeError`). -/
theorem CompoundAnalogSignal.no_scalar_state (cs : List SigObj) (d v m p : ℝ)
    (h : cs.all SigObj.isTransformed = true) :
    SigObj.time_delay (SigObj.compound cs) = Except.error PyErr.attributeError
    ∧ SigObj.flat_gain (SigObj.compound cs) = Except.error PyErr.attributeError
    ∧ SigObj.frequency_magnitude_slope (SigObj.compound cs) = Except.error PyErr.attributeError
    ∧ SigObj.frequency_phase_slope (SigObj.compound cs) = Except.error PyErr.attributeError
    ∧ SigObj.apply_delay (SigObj.compound cs) (some d)
        = Except.ok (SigObj.compound (cs.map (mutateDelay d)))
    ∧ SigObj.apply_gain (SigObj.compound cs) (some v)
        = Except.ok (SigObj.compound (cs.map (mutateGain v)))
    ∧ SigObj.apply_frequency_magnitude_slope (SigObj.compound cs) (some m)
        = Except.ok (SigObj.compound (cs.map (mutateMagSlope m)))
    ∧ SigObj.apply_frequency_phase_slope (SigObj.compound cs) (some p)
        = Except.ok (SigObj.compound (cs.map (mutatePhaseSlope p)))
    ∧ SigObj.time_delay (SigObj.compound (cs.map (mutateDelay d)))
        = Except.error PyErr.attributeError := by
  refine ⟨rfl, rfl, rfl, rfl, ?_, ?_, ?_, ?_, rfl⟩
  · rw [show SigObj.apply_delay (SigObj.compound cs) (some d)
          = (SigList.apply_delay cs (some d)).map SigObj.compound from rfl,
        SigList.apply_delay_map cs d h]
    rfl
  · rw [show SigObj.apply_gain (SigObj.compound cs) (some v)
          = (SigList.apply_gain cs (some v)).map SigObj.compound from rfl,
        SigList.apply_gain_map cs v h]
    rfl
  · rw [show SigObj.apply_frequency_magnitude_slope (SigObj.compound cs) (some m)
          = (SigList.apply_frequency_magnitude_slope cs (some m)).map SigObj.compound from rfl,
        SigList.apply_frequency_magnitude_slope_map cs m h]
    rfl
  · rw [show SigObj.apply_frequency_phase_slope (SigObj.compound cs) (some p)
          = (SigList.apply_frequency_phase_slope cs (some p)).map SigObj.compound from rfl,
        SigList.apply_frequency_phase_slope_map cs p h]
    rfl

/-- Witness for C10 on a one-component compound with concrete arguments. -/
theorem CompoundAnalogSignal.no_scalar_state_witness :
    ([SigObj.transformed Generator.base identityTransform].all SigObj.isTransformed = true)
    ∧ SigObj.time_delay
        (SigObj.compound [SigObj.transformed Generator.base identityTransform])
        = Except.error PyErr.attributeError
    ∧ SigObj.apply_delay
        (SigObj.compound [SigObj.transformed Generator.base identityTransform]) (some 1)
        = Except.ok (SigObj.compound
            ([SigObj.transformed Generator.base identityTransform].map (mutateDelay 1))) :=
  ⟨rfl,
   (CompoundAnalogSignal.no_scalar_state
      [SigObj.transformed Generator.base identityTransform] 1 1 1 1 rfl).1,
   (CompoundAnalogSignal.no_scalar_state
      [SigObj.transformed Generator.base identityTransform] 1 1 1 1 rfl).2.2.2.2.1⟩

lemma arange_count (start stop step : ℝ) (n : ℕ)
    (hcount : (stop - start) / step = (n : ℝ)) :
    arange start stop step = (List.range n).map fun i : ℕ => start + (i : ℝ) * step := by
  unfold arange
  rw [hcount, Int.ceil_natCast, Int.toNat_natCast]

lemma get_time_vector_eq (r : ℝ) (hr : 0 < r) (n : ℕ) (t : ℝ) :
    Generator.get_time_vector r n t = (List.range n).map fun i : ℕ => (i : ℝ) / r + t := by
  unfold Generator.get_time_vector
  rw [arange_count 0 ((n : ℝ) * (1 / r)) (1 / r) n (by field_simp), List.map_map]
  refine List.map_congr_left fun i hi => ?_
  show 0 + (i : ℝ) * (1 / r) + t = (i : ℝ) / r + t
  ring

/-- C9: for every rate `r > 0`, count `n ≥ 1` and offset `t`,
`Generator.get_time_vector(r, n, t)` has exactly `n` elements and its `i`-th
element is `t + i / r` (evenly spaced from `t` with step `1/r`). -/
theorem Generator.get_time_vector_spec (r : ℝ) (n : ℕ) (t : ℝ) (hr : 0 < r) (hn : 1 ≤ n) :
    (Generator.get_time_vector r n t).length = n
    ∧ Generator.get_time_vector r n t = (List.range n).map fun i : ℕ => t + (i : ℝ) / r := by
  have he := get_time_vector_eq r hr n t
  constructor
  · rw [he]; simp
  · rw [he]
    exact List.map_congr_left fun i hi => by ring

/-- Witness for C9 with `r = 1`, `n = 3`, `t = 0`. -/
theorem Generator.get_time_vector_spec_witness :
    (0 : ℝ) < 1 ∧ 1 ≤ 3
    ∧ ((Generator.get_time_vector 1 3 0).length = 3
       ∧ Generator.get_time_vector 1 3 0 = (List.range 3).map fun i : ℕ => 0 + (i : ℝ) / 1) :=
  ⟨one_pos, by decide, Generator.get_time_vector_spec 1 3 0 one_pos (by decide)⟩

lemma zipWith_add_replicate (n : ℕ) (a b : ℝ) :
    List.zipWith (fun x y => x + y) (List.replicate n a) (List.replicate n b)
      = List.replicate n (a + b) := by
  induction n with
  | zero => rfl
  | succ k ih => simp [List.replicate_succ, ih]

lemma npIAdd_eq_of_length (acc v : List ℝ) (h : v.length = acc.length) :
    npIAdd acc v = Except.ok (List.zipWith (fun a x => a + x) acc v) := by
  unfold npIAdd
  rw [if_pos h]

lemma sample_acc_spec (randn : ℤ → ℕ → ℝ) (r : ℝ) (n : ℕ) (t : ℝ)
    (cs : List SigObj) (vs : List (List ℝ))
    (hf : List.Forall₂
      (fun c v => SigObj.sample randn c r n t = Except.ok v ∧ v.length = n) cs vs) :
    ∀ acc : List ℝ, acc.length = n →
    SigList.sample_acc randn cs r n t acc
      = Except.ok (vs.foldl (fun a v => List.zipWith (fun x y => x + y) a v) acc) := by
  induction hf with
  | nil => intro acc hacc; rfl
  | @cons c v cs2 vs2 hcv hrest ih =>
    intro acc hacc
    obtain ⟨hs, hlen⟩ := hcv
    rw [show SigList.sample_acc randn (c :: cs2) r n t acc
          = Except.bind (SigObj.sample randn c r n t)
              (fun v2 => Except.bind (npIAdd acc v2)
                (fun acc2 => SigList.sample_acc randn cs2 r n t acc2)) from rfl,
        hs]
    show Except.bind (npIAdd acc v) _ = _
    rw [npIAdd_eq_of_length acc v (by rw [hlen, hacc])]
    show SigList.sample_acc randn cs2 r n t (List.zipWith (fun a x => a + x) acc v) = _
    rw [ih _ (by rw [List.length_zipWith, hacc, hlen, Nat.min_self])]
    rfl

/-- C6: `CompoundAnalogSignal.sample(r, n, t)` is the elementwise sum of the
component samples accumulated into `np.zeros(n)`: whenever every component
sample succeeds with a length-`n` vector, the compound sample is that foldl of
elementwise additions over the zero vector; in particular a compound of two
constant signals of amplitudes `a` and `b` samples to the constant vector
`a + b`, and a compound with zero components samples to all zeros without
error. -/
theorem CompoundAnalogSignal.sample_superposition (randn : ℤ → ℕ → ℝ) (r : ℝ) (n : ℕ)
    (t : ℝ) :
    (∀ (cs : List SigObj) (vs : List (List ℝ)),
      List.Forall₂
        (fun c v => SigObj.sample randn c r n t = Except.ok v ∧ v.length = n) cs vs →
      SigObj.sample randn (SigObj.compound cs) r n t
        = Except.ok
            (vs.foldl (fun a v => List.zipWith (fun x y => x + y) a v) (List.replicate n 0)))
    ∧ (∀ a b : ℝ,
        SigObj.sample randn
            (SigObj.compound
              [SigObj.transformed (Generator.const a) identityTransform,
               SigObj.transformed (Generator.const b) identityTransform]) r n t
          = Except.ok (List.replicate n (a + b)))
    ∧ SigObj.sample randn (SigObj.compound []) r n t
        = Except.ok (List.replicate n (0 : ℝ)) := by
  have hconst : ∀ a : ℝ,
      SigObj.sample randn (SigObj.transformed (Generator.const a) identityTransform) r n t
        = Except.ok (List.replicate n (a * 1)) := by
    intro a
    rw [show SigObj.sample randn (SigObj.transformed (Generator.const a) identityTransform) r n t
          = Except.ok
              (TransformedAnalogSignal.sample randn (Generator.const a) identityTransform r n t)
          from rfl,
        TransformedAnalogSignal.sample_identity]
    rw [show Generator.generate randn (Generator.const a) r n t
          = (List.replicate n (1 : ℝ)).map fun x => a * x from rfl]
    rw [List.map_replicate]
  have hgen : ∀ (cs : List SigObj) (vs : List (List ℝ)),
      List.Forall₂
        (fun c v => SigObj.sample randn c r n t = Except.ok v ∧ v.length = n) cs vs →
      SigObj.sample randn (SigObj.compound cs) r n t
        = Except.ok
            (vs.foldl (fun a v => List.zipWith (fun x y => x + y) a v)
              (List.replicate n 0)) := by
    intro cs vs hf
    rw [show SigObj.sample randn (SigObj.compound cs) r n t
          = SigList.sample_acc randn cs r n t (List.replicate n 0) from rfl]
    exact sample_acc_spec randn r n t cs vs hf _ (List.length_replicate n 0)
  refine ⟨hgen, ?_, hgen [] [] List.Forall₂.nil⟩
  intro a b
  have h2 := hgen
    [SigObj.transformed (Generator.const a) identityTransform,
     SigObj.transformed (Generator.const b) identityTransform]
    [List.replicate n (a * 1), List.replicate n (b * 1)]
    (List.Forall₂.cons ⟨hconst a, List.length_replicate n _⟩
      (List.Forall₂.cons ⟨hconst b, List.length_replicate n _⟩ List.Forall₂.nil))
  rw [h2]
  show Except.ok
      (List.zipWith (fun x y => x + y)
        (List.zipWith (fun x y => x + y) (List.replicate n (0 : ℝ)) (List.replicate n (a * 1)))
        (List.replicate n (b * 1))) = _
  rw [zipWith_add_replicate, zipWith_add_replicate,
      show (0 : ℝ) + a * 1 + b * 1 = a + b by ring]

/-- Witness for C6: the empty compound and the two-constant compound at
concrete arguments, with the `Forall₂` hypothesis instantiated at the empty
component list. -/
theorem CompoundAnalogSignal.sample_superposition_witness :
    SigObj.sample (fun _ _ => 0) (SigObj.compound []) 1 1 0
        = Except.ok (List.replicate 1 (0 : ℝ))
    ∧ SigObj.sample (fun _ _ => 0)
          (SigObj.compound
            [SigObj.transformed (Generator.const 1) identityTransform,
             SigObj.transformed (Generator.const 2) identityTransform]) 1 1 0
        = Except.ok (List.replicate 1 ((1 : ℝ) + 2)) :=
  ⟨(CompoundAnalogSignal.sample_superposition (fun _ _ => 0) 1 1 0).1 [] []
      List.Forall₂.nil,
   (CompoundAnalogSignal.sample_superposition (fun _ _ => 0) 1 1 0).2.1 1 2⟩

lemma samples_per_seed_pos : (0 : ℤ) < samples_per_seed := by
  norm_num [samples_per_seed]

lemma fdiv_W_mul_le (j : ℤ) : Int.fdiv j samples_per_seed * samples_per_seed ≤ j := by
  rw [Int.fdiv_eq_ediv _ (le_of_lt samples_per_seed_pos)]
  exact Int.ediv_mul_le j (ne_of_gt samples_per_seed_pos)

lemma lt_fdiv_add_one_mul (j : ℤ) :
    j < (Int.fdiv j samples_per_seed + 1) * samples_per_seed := by
  rw [Int.fdiv_eq_ediv _ (le_of_lt samples_per_seed_pos)]
  exact Int.lt_ediv_add_one_mul_self j samples_per_seed_pos

lemma fdiv_eq_of_le_lt {w j : ℤ} (h1 : w * samples_per_seed ≤ j)
    (h2 : j < (w + 1) * samples_per_seed) : Int.fdiv j samples_per_seed = w := by
  rw [Int.fdiv_eq_ediv _ (le_of_lt samples_per_seed_pos)]
  have hle : w ≤ j / samples_per_seed :=
    (Int.le_ediv_iff_mul_le samples_per_seed_pos).mpr h1
  have hlt : j / samples_per_seed < w + 1 :=
    (Int.ediv_lt_iff_lt_mul samples_per_seed_pos).mpr h2
  omega

lemma fdiv_W_mono {a b : ℤ} (h : a ≤ b) :
    Int.fdiv a samples_per_seed ≤ Int.fdiv b samples_per_seed := by
  rw [Int.fdiv_eq_ediv _ (le_of_lt samples_per_seed_pos),
      Int.fdiv_eq_ediv _ (le_of_lt samples_per_seed_pos)]
  exact Int.ediv_le_ediv samples_per_seed_pos h

lemma window_mem {w a b j : ℤ} (ha : Int.fdiv a samples_per_seed = w)
    (hb : Int.fdiv b samples_per_seed = w) (h1 : a ≤ j) (h2 : j ≤ b) :
    Int.fdiv j samples_per_seed = w := by
  have l1 := fdiv_W_mono h1
  have l2 := fdiv_W_mono h2
  omega

lemma noiseRange_single_window (randn : ℤ → ℕ → ℝ) (bs : ℤ) {w a b : ℤ} (hab : a ≤ b)
    (hwin : ∀ j, a ≤ j → j ≤ b → Int.fdiv j samples_per_seed = w) :
    noiseRange randn bs a b
      = streamDraw randn (seed_window_to_random_state bs w)
          (a - w * samples_per_seed).toNat (b - a + 1).toNat := by
  have hwa : w * samples_per_seed ≤ a := by
    have h0 := hwin a le_rfl hab
    have h1 := fdiv_W_mul_le a
    rw [h0] at h1
    exact h1
  unfold noiseRange streamDraw
  refine List.map_congr_left fun i hi => ?_
  rw [List.mem_range] at hi
  have hj : Int.fdiv (a + (i : ℤ)) samples_per_seed = w :=
    hwin _ (by omega) (by omega)
  unfold noiseAt
  rw [hj]
  congr 1
  omega

lemma noiseRange_split (randn : ℤ → ℕ → ℝ) (bs : ℤ) {a b c : ℤ} (h1 : a ≤ c)
    (h2 : c ≤ b + 1) :
    noiseRange randn bs a b = noiseRange randn bs a (c - 1) ++ noiseRange randn bs c b := by
  unfold noiseRange
  have hsplit : (b - a + 1).toNat = (c - 1 - a + 1).toNat + (b - c + 1).toNat := by omega
  rw [hsplit, List.range_add, List.map_append, List.map_map]
  congr 1
  refine List.map_congr_left fun i hi => ?_
  rw [List.mem_range] at hi
  show noiseAt randn bs (a + ((c - 1 - a + 1).toNat + i : ℕ)) = noiseAt randn bs (c + (i : ℤ))
  congr 1
  push_cast
  omega

lemma noiseRange_tail (randn : ℤ → ℕ → ℝ) (bs : ℤ) :
    ∀ (k : ℕ) (w b : ℤ), Int.fdiv b samples_per_seed = w + 1 + (k : ℤ) →
    noiseRange randn bs ((w + 1) * samples_per_seed) b
      = fullWindows randn bs (w + 1) k
        ++ streamDraw randn (seed_window_to_random_state bs (w + 1 + (k : ℤ))) 0
             ((b - (w + 1 + (k : ℤ)) * samples_per_seed).natAbs + 1) := by
  intro k
  induction k with
  | zero =>
    intro w b hb
    rw [fullWindows, List.nil_append]
    have hb1 : Int.fdiv b samples_per_seed = w + 1 := by
      rw [hb]; norm_num
    have hge : (w + 1) * samples_per_seed ≤ b := by
      have h1 := fdiv_W_mul_le b
      rw [hb1] at h1
      exact h1
    have ha : Int.fdiv ((w + 1) * samples_per_seed) samples_per_seed = w + 1 :=
      fdiv_eq_of_le_lt le_rfl
        (by
          have := samples_per_seed_pos
          nlinarith)
    rw [noiseRange_single_window randn bs hge fun j hj1 hj2 => window_mem ha hb1 hj1 hj2]
    have hskip : ((w + 1) * samples_per_seed - (w + 1) * samples_per_seed).toNat = 0 := by
      omega
    rw [hskip]
    congr 1
    · norm_num
    · have hexp : (w + 1 + ((0 : ℕ) : ℤ)) * samples_per_seed
          = (w + 1) * samples_per_seed := by norm_num
      rw [hexp]
      omega
  | succ k ih =>
    intro w b hb
    have hW := samples_per_seed_pos
    have e1 : (w + 2) * samples_per_seed = (w + 1) * samples_per_seed + samples_per_seed := by
      ring
    have e2 : ((w + 1) + 1) * samples_per_seed
        = (w + 1) * samples_per_seed + samples_per_seed := by ring
    have hbk : Int.fdiv b samples_per_seed = (w + 1) + 1 + (k : ℤ) := by
      rw [hb]; push_cast; ring
    have hge : ((w + 1) + 1 + (k : ℤ)) * samples_per_seed ≤ b := by
      have h1 := fdiv_W_mul_le b
      rw [hbk] at h1
      exact h1
    have e3 : ((w + 1) + 1 + (k : ℤ)) * samples_per_seed
        = (w + 1) * samples_per_seed + samples_per_seed + (k : ℤ) * samples_per_seed := by
      ring
    have hkW : 0 ≤ (k : ℤ) * samples_per_seed := by positivity
    rw [noiseRange_split randn bs
          (show (w + 1) * samples_per_seed ≤ (w + 2) * samples_per_seed by omega)
          (show (w + 2) * samples_per_seed ≤ b + 1 by omega)]
    have ha : Int.fdiv ((w + 1) * samples_per_seed) samples_per_seed = w + 1 :=
      fdiv_eq_of_le_lt le_rfl (by omega)
    have hc1 : Int.fdiv ((w + 2) * samples_per_seed - 1) samples_per_seed = w + 1 :=
      fdiv_eq_of_le_lt (by omega) (by omega)
    rw [noiseRange_single_window randn bs (by omega)
          fun j hj1 hj2 => window_mem ha hc1 hj1 hj2]
    have hstep : noiseRange randn bs ((w + 2) * samples_per_seed) b
        = noiseRange randn bs (((w + 1) + 1) * samples_per_seed) b := by
      rw [e1, e2]
    rw [hstep, ih (w + 1) b hbk, fullWindows, List.append_assoc]
    have hskip : ((w + 1) * samples_per_seed - (w + 1) * samples_per_seed).toNat = 0 := by
      omega
    have hcount : ((w + 2) * samples_per_seed - 1 - (w + 1) * samples_per_seed + 1).toNat
        = samples_per_seed.toNat := by omega
    have hseed2 : (w + 1) + 1 + (k : ℤ) = w + 1 + (((k + 1 : ℕ)) : ℤ) := by
      push_cast; ring
    rw [hskip, hcount, hseed2]

lemma draw_samples_eq_noiseRange (randn : ℤ → ℕ → ℝ) (bs a b : ℤ) (hab : a ≤ b) :
    draw_samples randn bs (a, b) = noiseRange randn bs a b := by
  unfold draw_samples
  dsimp only
  by_cases h : Int.fdiv a samples_per_seed = Int.fdiv b samples_per_seed
  · rw [if_pos h]
    rw [noiseRange_single_window randn bs hab fun j h1 h2 => window_mem rfl h.symm h1 h2]
    have hwa : Int.fdiv a samples_per_seed * samples_per_seed ≤ a := fdiv_W_mul_le a
    have k1 : (a - Int.fdiv a samples_per_seed * samples_per_seed).natAbs
        = (a - Int.fdiv a samples_per_seed * samples_per_seed).toNat := by omega
    rw [k1]
  · rw [if_neg h]
    have hle := fdiv_W_mono hab
    have hlt : Int.fdiv a samples_per_seed < Int.fdiv b samples_per_seed :=
      lt_of_le_of_ne hle h
    set ws := Int.fdiv a samples_per_seed with hws
    set we := Int.fdiv b samples_per_seed with hwe
    have hW := samples_per_seed_pos
    have haw : ws * samples_per_seed ≤ a := by rw [hws]; exact fdiv_W_mul_le a
    have halt : a < (ws + 1) * samples_per_seed := by rw [hws]; exact lt_fdiv_add_one_mul a
    have hbw : we * samples_per_seed ≤ b := by rw [hwe]; exact fdiv_W_mul_le b
    have hws1 : (ws + 1) * samples_per_seed ≤ we * samples_per_seed := by
      apply mul_le_mul_of_nonneg_right _ (le_of_lt hW)
      omega
    rw [noiseRange_split randn bs (le_of_lt halt)
          (show (ws + 1) * samples_per_seed ≤ b + 1 by omega)]
    have e2 : (ws + 1) * samples_per_seed = ws * samples_per_seed + samples_per_seed := by
      ring
    have hc1 : Int.fdiv ((ws + 1) * samples_per_seed - 1) samples_per_seed = ws :=
      fdiv_eq_of_le_lt (by omega) (by omega)
    rw [noiseRange_single_window randn bs (show a ≤ (ws + 1) * samples_per_seed - 1 by omega)
          fun j h1 h2 => window_mem hws.symm hc1 h1 h2]
    have hk : we = ws + 1 + (((we - (ws + 1)).toNat) : ℤ) := by omega
    have hfb : Int.fdiv b samples_per_seed = ws + 1 + (((we - (ws + 1)).toNat) : ℤ) := by
      rw [← hwe]
      omega
    rw [noiseRange_tail randn bs ((we - (ws + 1)).toNat) ws b hfb, ← hk]
    have k1 : (a - ws * samples_per_seed).natAbs = (a - ws * samples_per_seed).toNat := by
      omega
    have k2 : ((ws + 1) * samples_per_seed - a).natAbs
        = ((ws + 1) * samples_per_seed - 1 - a + 1).toNat := by omega
    rw [k1, k2, List.append_assoc]

lemma foldl_min_of_le (x : ℝ) (xs : List ℝ) (h : ∀ y ∈ xs, x ≤ y) : xs.foldl min x = x := by
  induction xs with
  | nil => rfl
  | cons y ys ih =>
    rw [List.foldl_cons, min_eq_left (h y (List.mem_cons_self y ys))]
    exact ih fun z hz => h z (List.mem_cons_of_mem y hz)

lemma npMin_mapRange (f : ℕ → ℝ) (hf : Monotone f) (n : ℕ) (hn : 1 ≤ n) :
    npMin ((List.range n).map f) = f 0 := by
  obtain ⟨m, rfl⟩ : ∃ m, n = m + 1 := ⟨n - 1, by omega⟩
  rw [List.range_succ_eq_map, List.map_cons, List.map_map, npMin]
  exact foldl_min_of_le _ _ fun y hy => by
    obtain ⟨i, hi, rfl⟩ := List.mem_map.mp hy
    exact hf (Nat.zero_le _)

lemma npMax_append_singleton (l : List ℝ) (hl : l ≠ []) (x : ℝ) :
    npMax (l ++ [x]) = max (npMax l) x := by
  cases l with
  | nil => exact absurd rfl hl
  | cons y ys =>
    rw [List.cons_append, npMax, npMax, List.foldl_append, List.foldl_cons, List.foldl_nil]

lemma npMax_mapRange (f : ℕ → ℝ) (hf : Monotone f) (n : ℕ) (hn : 1 ≤ n) :
    npMax ((List.range n).map f) = f (n - 1) := by
  induction n with
  | zero => omega
  | succ k ih =>
    rcases Nat.eq_zero_or_pos k with h0 | hk
    · subst h0
      rw [show List.range 1 = [0] from rfl, List.map_singleton, npMax, List.foldl_nil]
    · have hne : (List.range k).map f ≠ [] := by
        intro hcontra
        have := congrArg List.length hcontra
        simp at this
        omega
      rw [List.range_succ, List.map_append, List.map_singleton,
          npMax_append_singleton _ hne, ih hk,
          max_eq_right (hf (show k - 1 ≤ k by omega))]
      norm_num

lemma generate_int_grid (randn : ℤ → ℕ → ℝ) (g : GaussianNoiseGenerator) (r : ℝ)
    (hr : 0 < r) (m : ℤ) (n : ℕ) (hn : 1 ≤ n) :
    GaussianNoiseGenerator.generate randn g r n ((m : ℝ) / r)
      = (List.range n).map fun i : ℕ =>
          noiseAt randn g.base_seed (m + (i : ℤ)) * Real.sqrt g.variance + g.mean := by
  have hrne : r ≠ 0 := ne_of_gt hr
  have htv := get_time_vector_eq r hr n ((m : ℝ) / r)
  have hfmono : Monotone fun i : ℕ => (i : ℝ) / r + (m : ℝ) / r := by
    intro i j hij
    have hcast : (i : ℝ) ≤ (j : ℝ) := Nat.cast_le.mpr hij
    exact add_le_add_right ((div_le_div_iff_of_pos_right hr).mpr hcast) _
  have hmin : npMin (Generator.get_time_vector r n ((m : ℝ) / r))
      = ((0 : ℕ) : ℝ) / r + (m : ℝ) / r := by
    rw [htv]
    exact npMin_mapRange _ hfmono n hn
  have hmax : npMax (Generator.get_time_vector r n ((m : ℝ) / r))
      = ((n - 1 : ℕ) : ℝ) / r + (m : ℝ) / r := by
    rw [htv]
    exact npMax_mapRange _ hfmono n hn
  have hsmin : ⌊npMin (Generator.get_time_vector r n ((m : ℝ) / r)) * r⌋ = m := by
    rw [hmin]
    rw [show (((0 : ℕ) : ℝ) / r + (m : ℝ) / r) * r = ((m : ℤ) : ℝ) by
      push_cast; field_simp]
    exact Int.floor_intCast m
  have hsmax : ⌈npMax (Generator.get_time_vector r n ((m : ℝ) / r)) * r⌉
      = m + ((n - 1 : ℕ) : ℤ) := by
    rw [hmax]
    rw [show (((n - 1 : ℕ) : ℝ) / r + (m : ℝ) / r) * r = ((m + ((n - 1 : ℕ) : ℤ) : ℤ) : ℝ) by
      push_cast; field_simp; ring]
    exact Int.ceil_intCast _
  have hab : m ≤ m + ((n - 1 : ℕ) : ℤ) := by omega
  have htvlen : (Generator.get_time_vector r n ((m : ℝ) / r)).length = n := by
    rw [htv, List.length_map, List.length_range]
  have hlen : (noiseRange randn g.base_seed m (m + ((n - 1 : ℕ) : ℤ))).length = n := by
    unfold noiseRange
    rw [List.length_map, List.length_range]
    omega
  simp only [GaussianNoiseGenerator.generate]
  rw [hsmin, hsmax, draw_samples_eq_noiseRange randn g.base_seed _ _ hab]
  rw [if_neg (by rw [htvlen, hlen]; omega)]
  unfold noiseRange
  rw [show (m + ((n - 1 : ℕ) : ℤ) - m + 1).toNat = n by omega, List.map_map]
  rfl

/-- C2: for a fixed instance and rate and an integer-grid start time
`t = m / r` (so no fractional-offset correction triggers), the concatenation
of `generate` over `[t, t + k/r)` and `[t + k/r, t + 2k/r)` equals a single
`generate` over `[t, t + 2k/r)`, for every split point `k ≥ 1` — including
splits whose integer index range crosses a `2^20`-sample seed-window
boundary (the proof goes through `draw_samples`, which realises the pure
per-index noise sequence `noiseAt` across window boundaries). -/
theorem GaussianNoiseGenerator.generate_window_concat (randn : ℤ → ℕ → ℝ)
    (g : GaussianNoiseGenerator) (r : ℝ) (hr : 0 < r) (m : ℤ) (k : ℕ) (hk : 1 ≤ k) :
    GaussianNoiseGenerator.generate randn g r k ((m : ℝ) / r)
        ++ GaussianNoiseGenerator.generate randn g r k ((m : ℝ) / r + (k : ℝ) / r)
      = GaussianNoiseGenerator.generate randn g r (2 * k) ((m : ℝ) / r) := by
  have h2 : (m : ℝ) / r + (k : ℝ) / r = (((m + (k : ℤ)) : ℤ) : ℝ) / r := by
    push_cast
    rw [div_add_div_same]
  rw [h2, generate_int_grid randn g r hr m k hk,
      generate_int_grid randn g r hr (m + (k : ℤ)) k hk,
      generate_int_grid randn g r hr m (2 * k) (by omega),
      two_mul, List.range_add, List.map_append, List.map_map]
  congr 1
  refine List.map_congr_left fun i hi => ?_
  show noiseAt randn g.base_seed (m + (k : ℤ) + (i : ℤ)) * Real.sqrt g.variance + g.mean
      = noiseAt randn g.base_seed (m + ((k + i : ℕ) : ℤ)) * Real.sqrt g.variance + g.mean
  rw [show m + (k : ℤ) + (i : ℤ) = m + ((k + i : ℕ) : ℤ) by push_cast; ring]

/-- Witness for C2 at `r = 1`, `m = 0`, `k = 1`. -/
theorem GaussianNoiseGenerator.generate_window_concat_witness :
    (0 : ℝ) < 1 ∧ 1 ≤ 1
    ∧ GaussianNoiseGenerator.generate (fun _ _ => 0) (GaussianNoiseGenerator.mk 0 0 1) 1 1
          (((0 : ℤ) : ℝ) / 1)
        ++ GaussianNoiseGenerator.generate (fun _ _ => 0) (GaussianNoiseGenerator.mk 0 0 1) 1 1
          (((0 : ℤ) : ℝ) / 1 + ((1 : ℕ) : ℝ) / 1)
      = GaussianNoiseGenerator.generate (fun _ _ => 0) (GaussianNoiseGenerator.mk 0 0 1) 1
          (2 * 1) (((0 : ℤ) : ℝ) / 1) :=
  ⟨one_pos, le_refl 1,
   GaussianNoiseGenerator.generate_window_concat (fun _ _ => 0)
     (GaussianNoiseGenerator.mk 0 0 1) 1 one_pos 0 1 (le_refl 1)⟩
